import Mathlib

/-!
Verification of the package-management repository's two structured pipelines:
the wheel/sdist retention pruner (`pip-cleanup-versions.py`) and the Stata ado
inventory reporter (`stata-print-csv.py`).  Every definition below is a shallow
embedding of the corresponding Python source construct; file contents and
directory listings are passed in explicitly, since the scripts' I/O is the only
part not modelled.
-/

/-! Part 1: Python string comparison.
Python compares `str` values lexicographically by code point; the pruner sorts
each retention group with `sorted(files, key=lambda x: x[0], reverse=True)`,
so only `<` on the raw version strings is consulted. -/

/-- Python's `a < b` on strings, on their character lists: lexicographic by code
point, with a proper prefix smaller than its extensions. -/
def listLtb : List Char → List Char → Bool
  | _, [] => false
  | [], _ :: _ => true
  | a :: as, b :: bs =>
    if a.toNat < b.toNat then true
    else if b.toNat < a.toNat then false
    else listLtb as bs

theorem listLtb_total (a b : List Char) : listLtb a b = false ∨ listLtb b a = false := by
  induction a generalizing b with
  | nil => cases b <;> simp [listLtb]
  | cons x xs ih =>
    cases b with
    | nil => simp [listLtb]
    | cons y ys =>
      simp only [listLtb]
      rcases ih ys with h | h <;> split_ifs <;> simp [h] <;> omega

theorem listLtb_neg_trans (a b c : List Char) (hab : listLtb a b = false)
    (hbc : listLtb b c = false) : listLtb a c = false := by
  induction a generalizing b c with
  | nil =>
    cases c with
    | nil => simp [listLtb]
    | cons z zs =>
      cases b with
      | nil => simp [listLtb] at hbc
      | cons y ys => simp [listLtb] at hab
  | cons x xs ih =>
    cases c with
    | nil => simp [listLtb]
    | cons z zs =>
      cases b with
      | nil => simp [listLtb] at hbc
      | cons y ys =>
        simp only [listLtb] at hab hbc ⊢
        split_ifs at hab hbc ⊢ <;> first
          | rfl
          | omega
          | (exact ih ys zs hab hbc)

/-- Descending comparison used to sort a retention group, embedding the key
function `lambda x: x[0]` together with `reverse=True`: `versionGe a b` holds
when `b`'s raw version string is not greater than `a`'s. -/
def versionGe (a b : String × String) : Prop := listLtb a.1.data b.1.data = false

instance : DecidableRel versionGe := fun a b => instDecidableEqBool _ _

instance : IsTotal (String × String) versionGe :=
  ⟨fun a b => listLtb_total a.1.data b.1.data⟩

instance : IsTrans (String × String) versionGe :=
  ⟨fun a b c hab hbc => listLtb_neg_trans a.1.data b.1.data c.1.data hab hbc⟩

/-- The same descending comparison on bare version strings. -/
def strGe (a b : String) : Prop := listLtb a.data b.data = false

instance : DecidableRel strGe := fun a b => instDecidableEqBool _ _

instance : IsTotal String strGe := ⟨fun a b => listLtb_total a.data b.data⟩

instance : IsTrans String strGe :=
  ⟨fun a b c hab hbc => listLtb_neg_trans a.data b.data c.data hab hbc⟩

/-! Part 2: the two archive filename patterns.

The source compiles
`wheel_pattern = ^(.+?)-(\d+\.\d+\.\d+.*?)-(cp\d+|py\d+|py2\.py3)-.+\.whl$` and
`sdist_pattern = ^(.+?)-(\d+\.\d+\.\d+.*?)\.(tar\.gz|tar\.bz2|zip)$` and applies
`pattern.match(file.name)`.  The matchers below embed Python's backtracking
semantics for exactly these two patterns:

- `(.+?)` is lazy, so the shortest nonempty leading group is tried first and is
  extended one character at a time; `.` matches any character except a newline.
- each `\d+` is greedy, but since it must be followed by a character no digit
  can match (a literal dot or dash), only the maximal digit run can succeed, so
  the run is taken maximally with no further backtracking.  Digits are modelled
  as the ASCII digits, which agrees with Python on all realistic file names.
- `.*?` is lazy, so the version group ends at the earliest position from which
  the remainder of the pattern matches.  Shortening the final `\d+` run instead
  would place the required dot or dash on a digit, so no other division can
  match and trying boundary positions left to right is faithful.
- the alternatives of `(cp\d+|py\d+|py2\.py3)` are tried left to right; the
  three alternatives never match at the same starting position in a way that
  lets a later one rescue an earlier one's failed continuation, so committing
  to the first alternative that matches together with its following dash is
  faithful.
-/

/-- Test for the ASCII digits matched by `\d`. -/
def isDigitC (c : Char) : Bool := c.isDigit

/-- Test for the characters matched by `.` (any character except a newline). -/
def dotChar (c : Char) : Bool := c != '\n'

/-- Match `\d+\.`: a maximal nonempty digit run followed by a literal dot;
returns the run and the rest after the dot. -/
def digitsDot (l : List Char) : Option (List Char × List Char) :=
  if l.takeWhile isDigitC = [] then none else
  match l.dropWhile isDigitC with
  | '.' :: r2 => some (l.takeWhile isDigitC, r2)
  | _ => none

/-- Match a final `\d+`: a maximal nonempty digit run; returns the run and the
rest. -/
def digitsRun (l : List Char) : Option (List Char × List Char) :=
  if l.takeWhile isDigitC = [] then none
  else some (l.takeWhile isDigitC, l.dropWhile isDigitC)

/-- Match the mandatory `\d+\.\d+\.\d+` prefix of the version group: three
maximal nonempty digit runs separated by literal dots; returns the three runs
and the rest of the input. -/
def numTriple (l : List Char) : Option (List Char × List Char × List Char × List Char) :=
  match digitsDot l with
  | none => none
  | some (d1, r2) =>
    match digitsDot r2 with
    | none => none
    | some (d2, r4) =>
      match digitsRun r4 with
      | none => none
      | some (d3, r5) => some (d1, d2, d3, r5)

/-- Match the `-.+\.whl$` tail that follows the interpreter tag: a dash was
already consumed by the caller, so the rest must be at least one non-newline
character followed by the literal suffix ".whl" at the end of the name. -/
def bodyWhl (l : List Char) : Bool :=
  decide (5 ≤ l.length) && (l.drop (l.length - 4) == ['.', 'w', 'h', 'l'])
    && (l.take (l.length - 4)).all dotChar

/-- Match one `cp\d+` or `py\d+` interpreter-tag alternative (the two letters
are passed in) followed by the dash after the tag group; returns the tag
characters and the rest after the dash. -/
def tagNum (p1 p2 : Char) (l : List Char) : Option (List Char × List Char) :=
  match l with
  | a :: b :: r =>
    if a = p1 ∧ b = p2 then
      let ds := r.takeWhile isDigitC
      let r2 := r.dropWhile isDigitC
      if ds = [] then none else
      match r2 with
      | '-' :: rest => some (p1 :: p2 :: ds, rest)
      | _ => none
    else none
  | _ => none

/-- Match the `py2\.py3` interpreter-tag alternative followed by the dash after
the tag group. -/
def tagPy23 (l : List Char) : Option (List Char × List Char) :=
  match l with
  | 'p' :: 'y' :: '2' :: '.' :: 'p' :: 'y' :: '3' :: '-' :: rest =>
    some (['p', 'y', '2', '.', 'p', 'y', '3'], rest)
  | _ => none

/-- Match `(cp\d+|py\d+|py2\.py3)-.+\.whl$`: the alternation is tried left to
right and the matched tag must be followed by a dash and the wheel tail. -/
def tagDashBody (l : List Char) : Option (List Char) :=
  match tagNum 'c' 'p' l with
  | some (tag, rest) => if bodyWhl rest then some tag else none
  | none =>
    match tagNum 'p' 'y' l with
    | some (tag, rest) => if bodyWhl rest then some tag else none
    | none =>
      match tagPy23 l with
      | some (tag, rest) => if bodyWhl rest then some tag else none
      | none => none

/-- The lazy `.*?` tail of the wheel version group: starting right after the
numeric triple, the shortest extension is tried first; at each dash the tag and
tail of the pattern are attempted, and otherwise the scan extends over any
non-newline character.  Returns the extra version characters and the tag. -/
def versionScan (acc : List Char) : List Char → Option (List Char × List Char)
  | [] => none
  | c :: rest =>
    if c = '-' then
      match tagDashBody rest with
      | some tag => some (acc.reverse, tag)
      | none => versionScan (c :: acc) rest
    else if dotChar c then versionScan (c :: acc) rest
    else none

/-- Match `(\d+\.\d+\.\d+.*?)-(cp\d+|py\d+|py2\.py3)-.+\.whl$` starting right
after the dash that ends the name group; returns (version, tag). -/
def wheelTail (l : List Char) : Option (List Char × List Char) :=
  match numTriple l with
  | none => none
  | some (d1, d2, d3, rest) =>
    match versionScan [] rest with
    | none => none
    | some (extra, tag) => some (d1 ++ '.' :: (d2 ++ '.' :: (d3 ++ extra)), tag)

/-- The lazy leading group `(.+?)` shared by both patterns: the shortest
nonempty name is tried first; at each dash the rest of the pattern (`tail`) is
attempted, and otherwise the scan extends over any non-newline character. -/
def dashScan (tail : List Char → Option (List Char × List Char)) (acc : List Char) :
    List Char → Option (List Char × List Char × List Char)
  | [] => none
  | c :: rest =>
    if c = '-' then
      match tail rest with
      | some (v, e) => some (acc.reverse, v, e)
      | none => dashScan tail (c :: acc) rest
    else if dotChar c then dashScan tail (c :: acc) rest
    else none

/-- Apply `^(.+?)-` followed by the given tail matcher to a file name,
converting the matched groups back to strings. -/
def patMatch (tail : List Char → Option (List Char × List Char)) (s : String) :
    Option (String × String × String) :=
  match s.data with
  | [] => none
  | c :: rest =>
    if dotChar c then
      match dashScan tail [c] rest with
      | some (n, v, e) => some (String.mk n, String.mk v, String.mk e)
      | none => none
    else none

/-- Embedding of `wheel_pattern.match(name)`: the capture groups
(package name, version, interpreter tag) of the first match, if any. -/
def wheelMatch (s : String) : Option (String × String × String) :=
  patMatch wheelTail s

/-- Match the extension alternation `(tar\.gz|tar\.bz2|zip)$` of the sdist
pattern: the literal dot before it was consumed by the caller, so the whole
remainder must be exactly one of the three extensions. -/
def extMatch (l : List Char) : Option (List Char) :=
  if l = ['t', 'a', 'r', '.', 'g', 'z'] then some l
  else if l = ['t', 'a', 'r', '.', 'b', 'z', '2'] then some l
  else if l = ['z', 'i', 'p'] then some l
  else none

/-- The lazy `.*?` tail of the sdist version group: at each literal dot the
extension alternation is attempted against the whole remainder, and otherwise
the scan extends over any non-newline character. -/
def sdistScanV (acc : List Char) : List Char → Option (List Char × List Char)
  | [] => none
  | c :: rest =>
    if c = '.' then
      match extMatch rest with
      | some ext => some (acc.reverse, ext)
      | none => sdistScanV (c :: acc) rest
    else if dotChar c then sdistScanV (c :: acc) rest
    else none

/-- Match `(\d+\.\d+\.\d+.*?)\.(tar\.gz|tar\.bz2|zip)$` starting right after
the dash that ends the name group; returns (version, extension). -/
def sdistTail (l : List Char) : Option (List Char × List Char) :=
  match numTriple l with
  | none => none
  | some (d1, d2, d3, rest) =>
    match sdistScanV [] rest with
    | none => none
    | some (extra, ext) => some (d1 ++ '.' :: (d2 ++ '.' :: (d3 ++ extra)), ext)

/-- Embedding of `sdist_pattern.match(name)`: the capture groups
(package name, version, extension) of the first match, if any. -/
def sdistMatch (s : String) : Option (String × String × String) :=
  patMatch sdistTail s

/-! Part 3: grouping and pruning.

The script first builds all groups from the directory listing (wheels into
`packages` keyed by (package name, interpreter tag), source distributions into
`sdist_packages` keyed by package name), and only then deletes, per group, the
entries of `sorted(files, key=lambda x: x[0], reverse=True)[keep_versions:]`.
Both grouping loops run before any deletion, so a single directory listing
drives the whole run.  The `glob` calls only pre-filter by extension; the
regular expressions decide membership, so a file belongs to a wheel group
exactly when `wheel_pattern` matches it and to an sdist group exactly when
`sdist_pattern` matches it. -/

/-- The retention count `keep_versions = 3` of the source; the theorems are
stated for an arbitrary count and instantiated at this value. -/
def keep_versions : Nat := 3

/-- Wheel grouping key and version of a file name, from the match groups:
`key = (pkg_name, py_version)`. -/
def wheelKeyOf (f : String) : Option ((String × String) × String) :=
  match wheelMatch f with
  | some (n, v, t) => some ((n, t), v)
  | none => none

/-- Sdist grouping key (package name only) and version of a file name. -/
def sdistKeyOf (f : String) : Option (String × String) :=
  match sdistMatch f with
  | some (n, v, _) => some (n, v)
  | none => none

/-- The (version, file) pairs appended to the group of key `k`, in scan order,
embedding the `defaultdict(list)` grouping loops. -/
def groupOf {κ : Type} [DecidableEq κ] (keyFn : String → Option (κ × String))
    (files : List String) (k : κ) : List (String × String) :=
  files.filterMap (fun f =>
    match keyFn f with
    | some (k2, v) => if k2 = k then some (v, f) else none
    | none => none)

/-- The wheel group of key (package name, interpreter tag). -/
def wheelGroup (files : List String) (k : String × String) : List (String × String) :=
  groupOf wheelKeyOf files k

/-- The sdist group of a package name. -/
def sdistGroup (files : List String) (k : String) : List (String × String) :=
  groupOf sdistKeyOf files k

/-- The per-group sort `sorted(files, key=lambda x: x[0], reverse=True)`: a
stable descending sort by the raw version string.  Insertion sort is stable,
and a stable sort is determined by the comparison, so this computes the same
list as Python's stable sort. -/
def sorted_files (g : List (String × String)) : List (String × String) :=
  List.insertionSort versionGe g

/-- The entries of a group that survive pruning with retention count `K`. -/
def keptOf (K : Nat) (g : List (String × String)) : List (String × String) :=
  (sorted_files g).take K

/-- The entries of a group that the loop
`for version, file_path in sorted_files[keep_versions:]` deletes. -/
def deletedOf (K : Nat) (g : List (String × String)) : List (String × String) :=
  (sorted_files g).drop K

/-- Whether the wheel deletion loop deletes the file `f`: it does exactly when
`f` is a wheel and the wheel group of its own key ranks it beyond position `K`
in the descending sort. -/
def wheelDel (K : Nat) (files : List String) (f : String) : Bool :=
  match wheelKeyOf f with
  | some (k, _) => decide (f ∈ (deletedOf K (wheelGroup files k)).map Prod.snd)
  | none => false

/-- Whether the sdist deletion loop deletes the file `f`. -/
def sdistDel (K : Nat) (files : List String) (f : String) : Bool :=
  match sdistKeyOf f with
  | some (n, _) => decide (f ∈ (deletedOf K (sdistGroup files n)).map Prod.snd)
  | none => false

/-- Whether a run over the directory listing `files` with retention count `K`
deletes the file `f`: the two deletion loops run one after the other, so `f`
is gone exactly when either loop deletes it.  A file matching neither pattern
belongs to no group and is never deleted. -/
def isDeleted (K : Nat) (files : List String) (f : String) : Bool :=
  wheelDel K files f || sdistDel K files f

/-- The directory contents after one pruning run. -/
def runPrune (K : Nat) (files : List String) : List String :=
  files.filter (fun f => ! isDeleted K files f)

/-! Part 4: facts about pruning a single group. -/

theorem sorted_files_sorted (g : List (String × String)) :
    List.Sorted versionGe (sorted_files g) :=
  List.sorted_insertionSort versionGe g

theorem sorted_files_perm (g : List (String × String)) : (sorted_files g).Perm g :=
  List.perm_insertionSort versionGe g

theorem sorted_files_length (g : List (String × String)) :
    (sorted_files g).length = g.length :=
  (sorted_files_perm g).length_eq

/-- C1 helper: the version strings of a sorted group are the sorted version
strings of the group. -/
theorem sorted_files_map_fst (g : List (String × String)) :
    (sorted_files g).map Prod.fst = List.insertionSort strGe (g.map Prod.fst) :=
  List.map_insertionSort versionGe strGe Prod.fst g (fun _ _ _ _ => Iff.rfl)

/-- C1: pruning a group of N (version, file) entries with retention count K
deletes nothing when N is at most K; otherwise it deletes exactly N - K
entries, keeps exactly K, keeps and deletes a partition of the group, keeps
only entries whose raw version string is not smaller (under Python's string
order) than that of any deleted entry, and keeps exactly the K greatest
version strings of the descending string sort. -/
theorem prune_group_spec (K : Nat) (g : List (String × String)) :
    (g.length ≤ K → deletedOf K g = []) ∧
    (K < g.length →
      (deletedOf K g).length = g.length - K ∧
      (keptOf K g).length = K ∧
      (keptOf K g ++ deletedOf K g).Perm g ∧
      (∀ a ∈ keptOf K g, ∀ b ∈ deletedOf K g, listLtb a.1.data b.1.data = false) ∧
      (keptOf K g).map Prod.fst = (List.insertionSort strGe (g.map Prod.fst)).take K) := by
  constructor
  · intro h
    exact List.drop_eq_nil_of_le (by rw [sorted_files_length]; exact h)
  · intro h
    refine ⟨?_, ?_, ?_, ?_, ?_⟩
    · rw [deletedOf, List.length_drop, sorted_files_length]
    · rw [keptOf, List.length_take, sorted_files_length]
      omega
    · rw [keptOf, deletedOf, List.take_append_drop]
      exact sorted_files_perm g
    · have hp : List.Pairwise versionGe ((sorted_files g).take K ++ (sorted_files g).drop K) := by
        rw [List.take_append_drop]
        exact sorted_files_sorted g
      exact fun a ha b hb => (List.pairwise_append.mp hp).2.2 a ha b hb
    · rw [keptOf, List.map_take, sorted_files_map_fst]

/-- Example group from the specification: four foo wheels for the cp311 tag. -/
def exampleGroup : List (String × String) :=
  [("1.0.0", "foo-1.0.0-cp311-cp311-win_amd64.whl"),
   ("1.1.0", "foo-1.1.0-cp311-cp311-win_amd64.whl"),
   ("1.2.0", "foo-1.2.0-cp311-cp311-win_amd64.whl"),
   ("0.9.0", "foo-0.9.0-cp311-cp311-win_amd64.whl")]

/-- Witness for C1 at the specification's example: with K = 3 and the four foo
wheels, exactly one entry is deleted, three are kept, and the deleted file is
the lexicographically smallest version 0.9.0. -/
theorem prune_group_spec_witness :
    3 < exampleGroup.length ∧
    (deletedOf 3 exampleGroup).length = exampleGroup.length - 3 ∧
    (keptOf 3 exampleGroup).length = 3 ∧
    (deletedOf 3 exampleGroup).map Prod.snd = ["foo-0.9.0-cp311-cp311-win_amd64.whl"] :=
  ⟨by decide,
   ((prune_group_spec 3 exampleGroup).2 (by decide)).1,
   ((prune_group_spec 3 exampleGroup).2 (by decide)).2.1,
   by decide⟩

/-! Part 5: facts about grouping. -/

/-- An entry of a group records its own file name and key: `(v, f)` lies in the
group of key `k` exactly when `f` is in the listing and parses to `(k, v)`. -/
theorem mem_groupOf {κ : Type} [DecidableEq κ] (keyFn : String → Option (κ × String))
    (files : List String) (k : κ) (x : String × String) :
    x ∈ groupOf keyFn files k ↔ x.2 ∈ files ∧ keyFn x.2 = some (k, x.1) := by
  simp only [groupOf, List.mem_filterMap]
  constructor
  · rintro ⟨a, ha, hx⟩
    cases hk : keyFn a with
    | none => rw [hk] at hx; cases hx
    | some kv =>
      obtain ⟨k1, v1⟩ := kv
      rw [hk] at hx
      simp only at hx
      by_cases he : k1 = k
      · rw [if_pos he] at hx
        injection hx with hx
        subst hx
        subst he
        exact ⟨ha, hk⟩
      · rw [if_neg he] at hx
        cases hx
  · rintro ⟨ha, hk⟩
    refine ⟨x.2, ha, ?_⟩
    rw [hk]
    simp

/-- Grouping a filtered listing filters the groups entrywise by file name. -/
theorem groupOf_filter {κ : Type} [DecidableEq κ] (keyFn : String → Option (κ × String))
    (p : String → Bool) (files : List String) (k : κ) :
    groupOf keyFn (files.filter p) k = (groupOf keyFn files k).filter (fun x => p x.2) := by
  induction files with
  | nil => rfl
  | cons f fs ih =>
    simp only [groupOf] at ih ⊢
    cases hk : keyFn f with
    | none =>
      by_cases hp : p f <;>
        simp [List.filter_cons, hp, List.filterMap_cons, hk, ih]
    | some kv =>
      obtain ⟨k1, v1⟩ := kv
      by_cases he : k1 = k <;> by_cases hp : p f <;>
        simp [List.filter_cons, hp, List.filterMap_cons, hk, he, ih]

/-- C6: a file whose name matches neither the wheel pattern nor the sdist
pattern is never deleted by a run, survives every run it appears in, and is an
entry of no wheel or sdist group (so it is counted in no group's size). -/
theorem unmatched_file_untouched (K : Nat) (files : List String) (f : String)
    (hw : wheelMatch f = none) (hs : sdistMatch f = none) :
    isDeleted K files f = false ∧
    (f ∈ files → f ∈ runPrune K files) ∧
    (∀ k x, x ∈ wheelGroup files k → x.2 ≠ f) ∧
    (∀ n x, x ∈ sdistGroup files n → x.2 ≠ f) := by
  have hwk : wheelKeyOf f = none := by rw [wheelKeyOf, hw]
  have hsk : sdistKeyOf f = none := by rw [sdistKeyOf, hs]
  have hdel : isDeleted K files f = false := by simp [isDeleted, wheelDel, sdistDel, hwk, hsk]
  refine ⟨hdel, ?_, ?_, ?_⟩
  · intro hf
    exact List.mem_filter.mpr ⟨hf, by rw [hdel]; rfl⟩
  · intro k x hx hxf
    have := ((mem_groupOf wheelKeyOf files k x).mp hx).2
    rw [hxf, hwk] at this
    cases this
  · intro n x hx hxf
    have := ((mem_groupOf sdistKeyOf files n x).mp hx).2
    rw [hxf, hsk] at this
    cases this

/-- Witness for C6: README.txt matches neither pattern and survives a pruning
run over a listing that contains it. -/
theorem unmatched_file_untouched_witness :
    isDeleted 3 ["README.txt"] "README.txt" = false ∧
    "README.txt" ∈ runPrune 3 ["README.txt"] :=
  ⟨(unmatched_file_untouched 3 ["README.txt"] "README.txt" (by decide) (by decide)).1,
   (unmatched_file_untouched 3 ["README.txt"] "README.txt" (by decide) (by decide)).2.1
     (by decide)⟩


/-! Part 6: idempotence of pruning. -/

/-- Removing a group's deleted entries leaves at most K entries. -/
theorem filter_not_deleted_length (K : Nat) (g : List (String × String)) :
    (g.filter (fun x => ! decide (x.2 ∈ (deletedOf K g).map Prod.snd))).length ≤ K := by
  rw [← ((sorted_files_perm g).filter _).length_eq]
  conv_lhs => rw [← List.take_append_drop K (sorted_files g)]
  rw [List.filter_append]
  have hdrop : ((sorted_files g).drop K).filter
      (fun x => ! decide (x.2 ∈ (deletedOf K g).map Prod.snd)) = [] := by
    apply List.filter_eq_nil_iff.mpr
    intro x hx
    have hmem : x.2 ∈ (deletedOf K g).map Prod.snd := List.mem_map.mpr ⟨x, hx, rfl⟩
    simp [hmem]
  rw [hdrop, List.append_nil]
  exact le_trans (List.length_filter_le _ _) (List.length_take_le K _)

/-- After one run, every wheel group of the surviving listing has at most K
entries. -/
theorem wheelGroup_second_len (K : Nat) (files : List String) (k : String × String) :
    (wheelGroup (runPrune K files) k).length ≤ K := by
  rw [show wheelGroup (runPrune K files) k
      = (wheelGroup files k).filter (fun x => ! isDeleted K files x.2) from
    groupOf_filter wheelKeyOf _ files k]
  have hc : (wheelGroup files k).filter (fun x => ! isDeleted K files x.2)
      = (wheelGroup files k).filter (fun x =>
          ! decide (x.2 ∈ (deletedOf K (wheelGroup files k)).map Prod.snd)
            && ! sdistDel K files x.2) := by
    apply List.filter_congr
    intro x hx
    have hkey := ((mem_groupOf wheelKeyOf files k x).mp hx).2
    simp [isDeleted, wheelDel, hkey, Bool.not_or]
  rw [hc]
  refine le_trans (List.Sublist.length_le ?_) (filter_not_deleted_length K (wheelGroup files k))
  apply List.monotone_filter_right
  intro a ha
  exact ((Bool.and_eq_true _ _).mp ha).1

/-- After one run, every sdist group of the surviving listing has at most K
entries. -/
theorem sdistGroup_second_len (K : Nat) (files : List String) (n : String) :
    (sdistGroup (runPrune K files) n).length ≤ K := by
  rw [show sdistGroup (runPrune K files) n
      = (sdistGroup files n).filter (fun x => ! isDeleted K files x.2) from
    groupOf_filter sdistKeyOf _ files n]
  have hc : (sdistGroup files n).filter (fun x => ! isDeleted K files x.2)
      = (sdistGroup files n).filter (fun x =>
          ! decide (x.2 ∈ (deletedOf K (sdistGroup files n)).map Prod.snd)
            && ! wheelDel K files x.2) := by
    apply List.filter_congr
    intro x hx
    have hkey := ((mem_groupOf sdistKeyOf files n x).mp hx).2
    simp only [isDeleted, sdistDel, hkey, Bool.not_or]
    rw [Bool.and_comm]
  rw [hc]
  refine le_trans (List.Sublist.length_le ?_) (filter_not_deleted_length K (sdistGroup files n))
  apply List.monotone_filter_right
  intro a ha
  exact ((Bool.and_eq_true _ _).mp ha).1

/-- C5: pruning is idempotent.  A second run on the directory left by a first
run with the same retention count plans no deletion at all, so the listing is
unchanged. -/
theorem prune_idempotent (K : Nat) (files : List String) :
    (∀ f, isDeleted K (runPrune K files) f = false) ∧
    runPrune K (runPrune K files) = runPrune K files := by
  have hnone : ∀ f, isDeleted K (runPrune K files) f = false := by
    intro f
    have hw : wheelDel K (runPrune K files) f = false := by
      cases hk : wheelKeyOf f with
      | none => simp [wheelDel, hk]
      | some kv =>
        obtain ⟨k, v⟩ := kv
        have hnil : deletedOf K (wheelGroup (runPrune K files) k) = [] :=
          List.drop_eq_nil_of_le
            (by rw [sorted_files_length]; exact wheelGroup_second_len K files k)
        simp [wheelDel, hk, hnil]
    have hs : sdistDel K (runPrune K files) f = false := by
      cases hk : sdistKeyOf f with
      | none => simp [sdistDel, hk]
      | some kv =>
        obtain ⟨n, v⟩ := kv
        have hnil : deletedOf K (sdistGroup (runPrune K files) n) = [] :=
          List.drop_eq_nil_of_le
            (by rw [sorted_files_length]; exact sdistGroup_second_len K files n)
        simp [sdistDel, hk, hnil]
    simp [isDeleted, hw, hs]
  refine ⟨hnone, ?_⟩
  show (runPrune K files).filter (fun f => ! isDeleted K (runPrune K files) f)
      = runPrune K files
  apply List.filter_eq_self.mpr
  intro f _
  rw [hnone f]
  rfl

/-! Part 7: the shape of matched versions. -/

theorem takeWhile_all_append (p : Char → Bool) (xs : List Char) (y : Char) (ys : List Char)
    (hxs : xs.all p = true) (hy : p y = false) :
    (xs ++ y :: ys).takeWhile p = xs ∧ (xs ++ y :: ys).dropWhile p = y :: ys := by
  induction xs with
  | nil => simp [List.takeWhile_cons, List.dropWhile_cons, hy]
  | cons a as ih =>
    simp only [List.all_cons, Bool.and_eq_true] at hxs
    obtain ⟨ha, has⟩ := hxs
    have h2 := ih has
    simp [List.takeWhile_cons, List.dropWhile_cons, ha, h2.1, h2.2]

theorem digitsDot_some {l d r : List Char} (h : digitsDot l = some (d, r)) :
    d ≠ [] ∧ d.all isDigitC = true ∧ l = d ++ '.' :: r := by
  unfold digitsDot at h
  split_ifs at h with hd
  split at h
  · rename_i r2 heq
    injection h with h2
    obtain ⟨h3, h4⟩ := Prod.mk.injEq .. ▸ h2
    subst h3
    subst h4
    refine ⟨hd, List.all_takeWhile .., ?_⟩
    conv_lhs => rw [← List.takeWhile_append_dropWhile isDigitC l]
    rw [heq]
  · cases h

theorem digitsDot_build (d t : List Char) (hd : d ≠ []) (hall : d.all isDigitC = true) :
    digitsDot (d ++ '.' :: t) = some (d, t) := by
  have h := takeWhile_all_append isDigitC d '.' t hall (by decide)
  unfold digitsDot
  rw [h.1, h.2, if_neg hd]
  rfl

theorem digitsRun_some {l d r : List Char} (h : digitsRun l = some (d, r)) :
    d ≠ [] ∧ d.all isDigitC = true := by
  unfold digitsRun at h
  split_ifs at h with hd
  injection h with h2
  obtain ⟨h3, _⟩ := Prod.mk.injEq .. ▸ h2
  subst h3
  exact ⟨hd, List.all_takeWhile ..⟩

theorem digitsRun_build (d x : List Char) (hd : d ≠ []) (hall : d.all isDigitC = true) :
    (digitsRun (d ++ x)).isSome = true := by
  cases d with
  | nil => cases hd rfl
  | cons a as =>
    simp only [List.all_cons, Bool.and_eq_true] at hall
    unfold digitsRun
    simp [List.takeWhile_cons, hall.1]

theorem numTriple_parts {l d1 d2 d3 r : List Char}
    (h : numTriple l = some (d1, d2, d3, r)) :
    d1 ≠ [] ∧ d1.all isDigitC = true ∧ d2 ≠ [] ∧ d2.all isDigitC = true
      ∧ d3 ≠ [] ∧ d3.all isDigitC = true := by
  unfold numTriple at h
  split at h
  · cases h
  · rename_i e1 s1 heq1
    split at h
    · cases h
    · rename_i e2 s2 heq2
      split at h
      · cases h
      · rename_i e3 s3 heq3
        simp only [Option.some.injEq, Prod.mk.injEq] at h
        obtain ⟨ha, hb, hc, hdd⟩ := h
        subst ha
        subst hb
        subst hc
        obtain ⟨q1, q2, _⟩ := digitsDot_some heq1
        obtain ⟨q3, q4, _⟩ := digitsDot_some heq2
        obtain ⟨q5, q6⟩ := digitsRun_some heq3
        exact ⟨q1, q2, q3, q4, q5, q6⟩

theorem numTriple_append (d1 d2 d3 x : List Char)
    (h1 : d1 ≠ []) (h1a : d1.all isDigitC = true)
    (h2 : d2 ≠ []) (h2a : d2.all isDigitC = true)
    (h3 : d3 ≠ []) (h3a : d3.all isDigitC = true) :
    (numTriple (d1 ++ '.' :: (d2 ++ '.' :: (d3 ++ x)))).isSome = true := by
  unfold numTriple
  rw [digitsDot_build d1 _ h1 h1a]
  dsimp only
  rw [digitsDot_build d2 _ h2 h2a]
  dsimp only
  have hr := digitsRun_build d3 x h3 h3a
  cases hrun : digitsRun (d3 ++ x) with
  | none => rw [hrun] at hr; cases hr
  | some dr =>
    obtain ⟨a, b⟩ := dr
    simp

theorem wheelTail_version {l v t : List Char} (h : wheelTail l = some (v, t)) :
    (numTriple v).isSome = true := by
  unfold wheelTail at h
  split at h
  · cases h
  · rename_i d1 d2 d3 rest heq
    split at h
    · cases h
    · rename_i extra tag heq2
      simp only [Option.some.injEq, Prod.mk.injEq] at h
      obtain ⟨hv, _⟩ := h
      subst hv
      obtain ⟨q1, q2, q3, q4, q5, q6⟩ := numTriple_parts heq
      exact numTriple_append d1 d2 d3 extra q1 q2 q3 q4 q5 q6

theorem sdistTail_version {l v e : List Char} (h : sdistTail l = some (v, e)) :
    (numTriple v).isSome = true := by
  unfold sdistTail at h
  split at h
  · cases h
  · rename_i d1 d2 d3 rest heq
    split at h
    · cases h
    · rename_i extra ext heq2
      simp only [Option.some.injEq, Prod.mk.injEq] at h
      obtain ⟨hv, _⟩ := h
      subst hv
      obtain ⟨q1, q2, q3, q4, q5, q6⟩ := numTriple_parts heq
      exact numTriple_append d1 d2 d3 extra q1 q2 q3 q4 q5 q6

theorem dashScan_some (tail : List Char → Option (List Char × List Char)) :
    ∀ (l acc n v e : List Char),
      dashScan tail acc l = some (n, v, e) → ∃ l2, tail l2 = some (v, e) := by
  intro l
  induction l with
  | nil =>
    intro acc n v e h
    cases h
  | cons c rest ih =>
    intro acc n v e h
    rw [dashScan] at h
    by_cases hc : c = '-'
    · rw [if_pos hc] at h
      cases ht : tail rest with
      | none =>
        rw [ht] at h
        exact ih _ _ _ _ h
      | some ve =>
        obtain ⟨v2, e2⟩ := ve
        rw [ht] at h
        simp only [Option.some.injEq, Prod.mk.injEq] at h
        obtain ⟨_, hv, he⟩ := h
        subst hv
        subst he
        exact ⟨rest, ht⟩
    · rw [if_neg hc] at h
      by_cases hd : dotChar c
      · rw [if_pos hd] at h
        exact ih _ _ _ _ h
      · rw [if_neg hd] at h
        cases h

theorem patMatch_version (tail : List Char → Option (List Char × List Char)) (s : String)
    (n v e : String) (h : patMatch tail s = some (n, v, e)) :
    ∃ l2, tail l2 = some (v.data, e.data) := by
  unfold patMatch at h
  split at h
  · cases h
  · rename_i c rest heq
    split_ifs at h
    split at h
    · rename_i n2 v2 e2 heq2
      simp only [Option.some.injEq, Prod.mk.injEq] at h
      obtain ⟨_, hv, he⟩ := h
      subst hv
      subst he
      exact dashScan_some tail rest [c] n2 v2 e2 heq2
    · cases h

/-- C9: both filename patterns force the version group to begin with three
dot-separated numeric components: every version captured by either pattern
passes the `\d+\.\d+\.\d+` prefix check, and archives whose version has fewer
components, such as foo-1.0.tar.gz and foo-2.1-py3-none-any.whl, match
neither pattern, so a pruning run over any listing never deletes them. -/
theorem version_three_components :
    (∀ f n v t, wheelMatch f = some (n, v, t) → (numTriple v.data).isSome = true) ∧
    (∀ f n v e, sdistMatch f = some (n, v, e) → (numTriple v.data).isSome = true) ∧
    wheelMatch "foo-1.0.tar.gz" = none ∧
    sdistMatch "foo-1.0.tar.gz" = none ∧
    wheelMatch "foo-2.1-py3-none-any.whl" = none ∧
    sdistMatch "foo-2.1-py3-none-any.whl" = none ∧
    (∀ K files, isDeleted K files "foo-1.0.tar.gz" = false) ∧
    (∀ K files, isDeleted K files "foo-2.1-py3-none-any.whl" = false) := by
  refine ⟨?_, ?_, by decide, by decide, by decide, by decide, ?_, ?_⟩
  · intro f n v t h
    obtain ⟨l2, hl2⟩ := patMatch_version wheelTail f n v t h
    exact wheelTail_version hl2
  · intro f n v e h
    obtain ⟨l2, hl2⟩ := patMatch_version sdistTail f n v e h
    exact sdistTail_version hl2
  · intro K files
    have hw : wheelKeyOf "foo-1.0.tar.gz" = none := by decide
    have hs : sdistKeyOf "foo-1.0.tar.gz" = none := by decide
    simp [isDeleted, wheelDel, sdistDel, hw, hs]
  · intro K files
    have hw : wheelKeyOf "foo-2.1-py3-none-any.whl" = none := by decide
    have hs : sdistKeyOf "foo-2.1-py3-none-any.whl" = none := by decide
    simp [isDeleted, wheelDel, sdistDel, hw, hs]

/-- Witness for C9: a matching wheel name whose captured version 1.24.3 indeed
starts with three numeric components. -/
theorem version_three_components_witness :
    wheelMatch "numpy-1.24.3-cp313-cp313-win_amd64.whl" = some ("numpy", "1.24.3", "cp313") ∧
    (numTriple ("1.24.3" : String).data).isSome = true :=
  ⟨by decide,
   version_three_components.1 "numpy-1.24.3-cp313-cp313-win_amd64.whl" "numpy" "1.24.3" "cp313"
     (by decide)⟩

/-! Part 8: the ado inventory reporter.

Embedding of `stata-print-csv.py`.  File system walking and reading are I/O,
so a scanned file is passed in as its metadata: its stem, its lines (or `none`
when reading raises OSError), the relative path computed against the manifest
root (`os.path.relpath`, falling back to the bare file name on ValueError) and
its parent directory.  All the string heuristics of the script are embedded
below.  Python's `str.lower` and `str.strip` act on Unicode; the embeddings
act on the ASCII subset, where the two agree, which covers every input
considered in the theorems. -/

/-- The whitespace characters stripped by `str.strip()` with no argument. -/
def isSpacePy (c : Char) : Bool :=
  c == ' ' || c == '\t' || c == '\n' || c == '\x0b' || c == '\x0c' || c == '\r'

/-- Both-ends whitespace stripping on a character list. -/
def stripList (l : List Char) : List Char :=
  ((l.dropWhile isSpacePy).reverse.dropWhile isSpacePy).reverse

/-- Embedding of `line.strip()`. -/
def pyStrip (s : String) : String := String.mk (stripList s.data)

/-- Lower-casing of one character: the letters A-Z map to a-z, everything
else is unchanged. -/
def lowerChar (c : Char) : Char :=
  if 'A' ≤ c ∧ c ≤ 'Z' then Char.ofNat (c.toNat + 32) else c

/-- Embedding of `stripped.lower()`. -/
def lowerStr (s : String) : String := String.mk (s.data.map lowerChar)

/-- Embedding of `stripped.startswith("*")`. -/
def startsWithStar (s : String) : Bool :=
  match s.data with
  | [] => false
  | c :: _ => c == '*'

/-- Embedding of `stripped.lstrip("*")`: drop every leading asterisk. -/
def stripStars (s : String) : String :=
  String.mk (s.data.dropWhile (fun c => c == '*'))

/-- Whether the first list starts the second, helper for the substring test. -/
def hasPrefixC : List Char → List Char → Bool
  | [], _ => true
  | _ :: _, [] => false
  | p :: ps, c :: cs => p == c && hasPrefixC ps cs

/-- Whether `pat` occurs contiguously, embedding Python's `"version" in lower`. -/
def hasSubC (pat : List Char) : List Char → Bool
  | [] => hasPrefixC pat []
  | c :: cs => hasPrefixC pat (c :: cs) || hasSubC pat cs

/-- Embedding of `str.split()` with no argument: split on whitespace runs and
drop empty pieces.  The accumulator holds the current word reversed. -/
def splitWsAux : List Char → List Char → List (List Char)
  | [], acc => if acc = [] then [] else [acc.reverse]
  | c :: rest, acc =>
    if isSpacePy c then
      if acc = [] then splitWsAux rest [] else acc.reverse :: splitWsAux rest []
    else splitWsAux rest (c :: acc)

/-- The token scan of the version branch: the first token equal to "version"
that has a successor token yields that successor, embedding
`if token == "version" and idx + 1 < len(parts)` with its `break`. -/
def findVersionTok : List (List Char) → Option (List Char)
  | [] => none
  | t :: rest =>
    if t = ['v', 'e', 'r', 's', 'i', 'o', 'n'] ∧ rest ≠ [] then rest.head?
    else findVersionTok rest

/-- Python truthiness of an optional string: None and "" are falsy. -/
def truthyOpt : Option String → Bool
  | none => false
  | some s => s != ""

/-- The description branch of one line of `extract_local_metadata`: a line
whose stripped form starts with the comment marker sets the description when
the current one is falsy, to the stripped line without its leading stars. -/
def descStep (line : String) (d : Option String) : Option String :=
  if startsWithStar (pyStrip line) && ! truthyOpt d
  then some (pyStrip (stripStars (pyStrip line))) else d

/-- The version branch of one line of `extract_local_metadata`: when the
lower-cased stripped line contains "version" and the line does not start with
the comment marker, the token after the first suitable "version" token of the
lower-cased line replaces the version; otherwise the version is unchanged. -/
def versStep (line : String) (v : Option String) : Option String :=
  if hasSubC ['v', 'e', 'r', 's', 'i', 'o', 'n'] (lowerStr (pyStrip line)).data
      && ! startsWithStar (pyStrip line)
  then
    match findVersionTok (splitWsAux (lowerStr (pyStrip line)).data []) with
    | some t => some (String.mk t)
    | none => v
  else v

/-- The header scan of `extract_local_metadata`: per line, first the
description branch, then the version branch, then the early-exit check once
both are truthy, threading the current optional version and description. -/
def metaLoop : List String → Option String → Option String → Option String × Option String
  | [], v, d => (v, d)
  | line :: rest, v, d =>
    if truthyOpt (versStep line v) && truthyOpt (descStep line d)
    then (versStep line v, descStep line d)
    else metaLoop rest (versStep line v) (descStep line d)

/-- The line budget `SUMMARY_LINE_LIMIT = 30`. -/
def SUMMARY_LINE_LIMIT : Nat := 30

/-- Embedding of `extract_local_metadata`: `contents` is the list of lines of
the file, or `none` when opening or reading raises OSError; the result is the
(version, description) pair, each component `none` when not found. -/
def extract_local_metadata (contents : Option (List String)) :
    Option String × Option String :=
  match contents with
  | none => (none, none)
  | some lines => metaLoop (lines.take SUMMARY_LINE_LIMIT) none none

/-- Embedding of `sanitize`: the string coercion is done by the caller here,
and each embedded tab becomes a space. -/
def sanitizeField (s : String) : String :=
  String.mk (s.data.map (fun c => if c = '\t' then ' ' else c))

/-- Join the sanitized columns with tabs, embedding `"\t".join(...)`. -/
def joinTabsC : List String → List Char
  | [] => []
  | [s] => (sanitizeField s).data
  | s :: rest => (sanitizeField s).data ++ '\t' :: joinTabsC rest

/-- Embedding of `format_row` with the source's fixed column order; `source`
defaults to "Stata" at every call site of the script. -/
def format_row (package version description url location ssc_found ssc_url
    file_hash source : String) : String :=
  String.mk (joinTabsC
    [package, version, source, "Reviewer", "Installer", description, url, location,
     ssc_found, ssc_url, file_hash])

/-- The manifest index built by the entry loop of `load_hash_index`,
specialised to well-formed (RelativePath, Hash) string pairs: entries with a
falsy relative path or hash are skipped and the key is the lower-cased
relative path.  Insertion order is kept; as in a Python dict a later duplicate
key overwrites an earlier one, which the last-match lookup below reproduces. -/
def buildIndex (entries : List (String × String)) : List (String × String) :=
  entries.filterMap (fun e =>
    if e.1 != "" && e.2 != "" then some (lowerStr e.1, e.2) else none)

/-- Python dict lookup on an insertion-ordered association list: the value of
the last binding of the key, if any. -/
def dictGet (idx : List (String × String)) (key : String) : Option String :=
  (idx.reverse.find? (fun e => e.1 == key)).map Prod.snd

/-- Embedding of `hashes.get(relative.lower(), "")` against the index built
from the manifest entries. -/
def hashLookup (entries : List (String × String)) (relative : String) : String :=
  (dictGet (buildIndex entries) (lowerStr relative)).getD ""

/-- Path-separator normalisation, used only to state that two paths differ
only in separators and letter case; the reporter itself never performs it. -/
def sepNorm (s : String) : String :=
  String.mk (s.data.map (fun c => if c = '\\' then '/' else c))

/-- One scanned ado file, as the walk of `print_report` sees it: the stem
(package name), the lines read (or `none` on OSError), the relative path
against the manifest root (already the bare name when `os.path.relpath`
raised ValueError) and the parent directory used as install location. -/
structure AdoFile where
  stem : String
  contents : Option (List String)
  relative : String
  parent : String

/-- The row `print_report` emits for one scanned file. -/
def reportRow (entries : List (String × String)) (f : AdoFile) : String :=
  format_row f.stem
    ((extract_local_metadata f.contents).1.getD "")
    ((extract_local_metadata f.contents).2.getD "")
    "" f.parent "" "" (hashLookup entries f.relative) "Stata"

/-- Embedding of the walk of `print_report`: one row per scanned file, in walk
order. -/
def print_report (entries : List (String × String)) (files : List AdoFile) :
    List String :=
  files.map (reportRow entries)

/-! Part 9: reporter theorems. -/

/-- The three-line example header from the specification. -/
def exampleHeader : List String :=
  ["* Summary: computes widgets", "*! version 2.1", "program define widget"]

/-- C2 counterexample: on the specification's example header the extractor
does not return version "2.1": the line `*! version 2.1` starts with the
comment marker, and the version branch only reads lines that do not start
with the comment marker, so no version is found at all. -/
theorem metadata_example_version_not_21 :
    (extract_local_metadata (some exampleHeader)).1 ≠ some "2.1" := by decide

/-- C2 amended: the example header yields description "Summary: computes
widgets" and no version, since the only line containing "version" starts with
the comment marker and is skipped by the version branch. -/
theorem metadata_example_value :
    extract_local_metadata (some exampleHeader)
      = (none, some "Summary: computes widgets") := by decide

/-- A sanitized field holds no tab. -/
theorem sanitizeField_no_tab (s : String) : (sanitizeField s).data.count '\t' = 0 := by
  rw [sanitizeField]
  apply List.count_eq_zero.mpr
  intro hmem
  obtain ⟨c, _, hc⟩ := List.mem_map.mp hmem
  by_cases h : c = '\t' <;> simp [h] at hc

/-- C8: every row the formatter produces contains exactly ten tab characters,
splitting into exactly eleven fields, for all field values: each field has its
embedded tabs replaced by spaces before the eleven columns are joined. -/
theorem format_row_ten_tabs (package version description url location ssc_found
    ssc_url file_hash source : String) :
    (format_row package version description url location ssc_found ssc_url
      file_hash source).data.count '\t' = 10 := by
  show (joinTabsC [package, version, source, "Reviewer", "Installer", description,
    url, location, ssc_found, ssc_url, file_hash]).count '\t' = 10
  simp [joinTabsC, List.count_append, List.count_cons, sanitizeField_no_tab]

/-- C7: the walk reports every scanned file even when reading it failed: the
report holds one row per file, and a file whose contents could not be read is
still reported, with empty version and description fields. -/
theorem unreadable_file_reported (entries : List (String × String)) (files : List AdoFile) :
    (print_report entries files).length = files.length ∧
    (∀ f ∈ files, f.contents = none →
      reportRow entries f
        = format_row f.stem "" "" "" f.parent "" "" (hashLookup entries f.relative) "Stata" ∧
      reportRow entries f ∈ print_report entries files) := by
  refine ⟨List.length_map _ _, ?_⟩
  intro f hf hc
  constructor
  · rw [reportRow, hc]
    rfl
  · exact List.mem_map_of_mem _ hf

/-- Witness for C7: an unreadable file is still one row with empty version and
description fields. -/
theorem unreadable_file_reported_witness :
    (print_report [] [AdoFile.mk "badfile" none "badfile.ado" "C:"]).length = 1 ∧
    reportRow [] (AdoFile.mk "badfile" none "badfile.ado" "C:")
      = format_row "badfile" "" "" "" "C:" "" "" "" "Stata" :=
  ⟨(unreadable_file_reported [] [AdoFile.mk "badfile" none "badfile.ado" "C:"]).1,
   ((unreadable_file_reported [] [AdoFile.mk "badfile" none "badfile.ado" "C:"]).2
      (AdoFile.mk "badfile" none "badfile.ado" "C:") (List.mem_singleton.mpr rfl) rfl).1⟩

/-- Test for an upper-case ASCII letter. -/
def isUpperA (c : Char) : Bool := decide ('A' ≤ c) && decide (c ≤ 'Z')

/-- Lower-casing never leaves an upper-case ASCII letter. -/
theorem lowerChar_not_upper (c : Char) : isUpperA (lowerChar c) = false := by
  unfold lowerChar isUpperA
  split_ifs with h
  · obtain ⟨h1, h2⟩ := h
    have n1 : 65 ≤ c.toNat := h1
    have n2 : c.toNat ≤ 90 := h2
    have hv : (c.toNat + 32).isValidChar := Or.inl (by omega)
    have hofn : Char.ofNat (c.toNat + 32) = Char.ofNatAux (c.toNat + 32) hv := dif_pos hv
    have ht : (Char.ofNat (c.toNat + 32)).toNat = c.toNat + 32 := by rw [hofn]; rfl
    have hgt : ¬ (Char.ofNat (c.toNat + 32) ≤ 'Z') := by
      intro hb
      have hn : (Char.ofNat (c.toNat + 32)).toNat ≤ 90 := hb
      rw [ht] at hn
      omega
    simp [hgt]
  · by_cases ha : 'A' ≤ c
    · have hz : ¬ (c ≤ 'Z') := fun hb => h ⟨ha, hb⟩
      simp [hz]
    · simp [ha]

/-- Every character of a lower-cased string avoids upper-case ASCII. -/
theorem lowerStr_no_upper (s : String) :
    ∀ c ∈ (lowerStr s).data, isUpperA c = false := by
  intro c hc
  obtain ⟨a, _, ha⟩ := List.mem_map.mp hc
  rw [← ha]
  exact lowerChar_not_upper a

/-- Characters of the whitespace-split tokens come from the input or the
pending accumulator. -/
theorem splitWsAux_chars (Q : Char → Prop) :
    ∀ (l acc : List Char), (∀ c ∈ l, Q c) → (∀ c ∈ acc, Q c) →
      ∀ t ∈ splitWsAux l acc, ∀ c ∈ t, Q c := by
  intro l
  induction l with
  | nil =>
    intro acc hl hacc t ht c hc
    rw [splitWsAux] at ht
    split_ifs at ht with h
    · cases ht
    · rw [List.mem_singleton] at ht
      subst ht
      exact hacc c (List.mem_reverse.mp hc)
  | cons a rest ih =>
    intro acc hl hacc t ht c hc
    rw [splitWsAux] at ht
    have hrest : ∀ x ∈ rest, Q x := fun x hx => hl x (List.mem_cons_of_mem a hx)
    split_ifs at ht with h1 h2
    · exact ih [] hrest (by simp) t ht c hc
    · rcases List.mem_cons.mp ht with h | h
      · subst h
        exact hacc c (List.mem_reverse.mp hc)
      · exact ih [] hrest (by simp) t h c hc
    · refine ih (a :: acc) hrest ?_ t ht c hc
      intro x hx
      rcases List.mem_cons.mp hx with h | h
      · exact h ▸ hl a (List.mem_cons_self a rest)
      · exact hacc x h

/-- The version token scan returns one of its tokens. -/
theorem findVersionTok_mem : ∀ (ts : List (List Char)) (t : List Char),
    findVersionTok ts = some t → t ∈ ts := by
  intro ts
  induction ts with
  | nil => intro t h; cases h
  | cons a rest ih =>
    intro t h
    rw [findVersionTok] at h
    split_ifs at h with hc
    · cases rest with
      | nil => cases h
      | cons b bs =>
        injection h with h2
        subst h2
        exact List.mem_cons_of_mem a (List.mem_cons_self b bs)
    · exact List.mem_cons_of_mem a (ih t h)

/-- The version branch only ever installs tokens of a lower-cased line, so it
preserves the absence of upper-case ASCII letters in the version. -/
theorem versStep_no_upper (line : String) (v : Option String)
    (hv : ∀ s, v = some s → s.data.all (fun c => ! isUpperA c) = true) :
    ∀ s, versStep line v = some s → s.data.all (fun c => ! isUpperA c) = true := by
  intro s hs
  unfold versStep at hs
  split_ifs at hs with hcond
  · split at hs
    · rename_i t heq
      injection hs with hs2
      subst hs2
      apply List.all_eq_true.mpr
      intro c hc
      have htok := findVersionTok_mem _ _ heq
      have hchar := splitWsAux_chars (fun c => isUpperA c = false)
        (lowerStr (pyStrip line)).data [] (lowerStr_no_upper (pyStrip line))
        (by intro c h; cases h) t htok c hc
      simp [hchar]
    · exact hv s hs
  · exact hv s hs

/-- The whole header scan preserves the absence of upper-case ASCII letters in
the version component. -/
theorem metaLoop_no_upper :
    ∀ (lines : List String) (v d : Option String),
      (∀ s, v = some s → s.data.all (fun c => ! isUpperA c) = true) →
      ∀ s, (metaLoop lines v d).1 = some s → s.data.all (fun c => ! isUpperA c) = true := by
  intro lines
  induction lines with
  | nil => intro v d hv s hs; exact hv s hs
  | cons line rest ih =>
    intro v d hv s hs
    rw [metaLoop] at hs
    split_ifs at hs with h
    · exact versStep_no_upper line v hv s hs
    · exact ih (versStep line v) (descStep line d) (versStep_no_upper line v hv) s hs

/-- C10: the version reported by the metadata extractor is taken from the
lower-cased copy of its line, so it never contains an upper-case ASCII
letter; in particular the header line "version 2.1B" yields "2.1b". -/
theorem version_reported_lower :
    (∀ contents s, (extract_local_metadata contents).1 = some s →
      s.data.all (fun c => ! isUpperA c) = true) ∧
    extract_local_metadata (some ["version 2.1B"]) = (some "2.1b", none) := by
  constructor
  · intro contents s hs
    cases contents with
    | none => cases hs
    | some lines =>
      exact metaLoop_no_upper (lines.take SUMMARY_LINE_LIMIT) none none
        (by intro s2 h2; cases h2) s hs
  · decide

/-- Witness for C10: the reported version "2.1b" holds no upper-case ASCII
letter. -/
theorem version_reported_lower_witness :
    (extract_local_metadata (some ["version 2.1B"])).1 = some "2.1b" ∧
    ("2.1b" : String).data.all (fun c => ! isUpperA c) = true :=
  ⟨by decide,
   version_reported_lower.1 (some ["version 2.1B"]) "2.1b" (by decide)⟩

/-- C3 counterexample: a manifest entry SUB/FILE.ADO and a walked relative
path sub\file.ado differ only in letter case and in path separators, yet the
lookup misses and reports the empty hash: lower-casing both sides normalises
case but never the separators. -/
theorem hash_lookup_separator_miss :
    sepNorm (lowerStr "SUB/FILE.ADO") = sepNorm (lowerStr "sub\\file.ado") ∧
    hashLookup [("SUB/FILE.ADO", "h")] "sub\\file.ado" = "" := by
  constructor
  · decide
  · decide

/-- C3 amended: a manifest entry's hash is attached to a file exactly when
the lower-cased manifest path and the lower-cased walked relative path are
equal as strings (the entry's path and hash must also be non-empty to enter
the index).  Letter-case differences therefore never cause a miss, but path
separator differences are not normalised and do cause one. -/
theorem hash_lookup_lowercase_exact :
    (∀ (entries : List (String × String)) (rel : String),
      (dictGet (buildIndex entries) (lowerStr rel)).isSome = true ↔
        ∃ e ∈ entries, e.1 ≠ "" ∧ e.2 ≠ "" ∧ lowerStr e.1 = lowerStr rel) ∧
    (∀ (entries : List (String × String)) (rel rel2 : String),
      lowerStr rel = lowerStr rel2 →
        hashLookup entries rel = hashLookup entries rel2) := by
  constructor
  · intro entries rel
    have hmap : ∀ (o : Option (String × String)), (o.map Prod.snd).isSome = o.isSome := by
      intro o
      cases o <;> rfl
    rw [dictGet, hmap, List.find?_isSome]
    constructor
    · rintro ⟨x, hx, hpx⟩
      rw [List.mem_reverse] at hx
      obtain ⟨e, he, hex⟩ := List.mem_filterMap.mp hx
      split_ifs at hex with hcond
      · injection hex with hex2
        subst hex2
        simp only [Bool.and_eq_true, bne_iff_ne] at hcond
        refine ⟨e, he, hcond.1, hcond.2, ?_⟩
        exact eq_of_beq hpx
    · rintro ⟨e, he, h1, h2, h3⟩
      refine ⟨(lowerStr e.1, e.2), ?_, ?_⟩
      · rw [List.mem_reverse]
        apply List.mem_filterMap.mpr
        refine ⟨e, he, ?_⟩
        rw [if_pos]
        simp [bne_iff_ne, h1, h2]
      · simp [h3]
  · intro entries rel rel2 h
    rw [hashLookup, hashLookup, h]

/-- Witness for C3: a lookup key differing from the stored entry only in
letter case still finds the hash, and the two lookups agree. -/
theorem hash_lookup_lowercase_exact_witness :
    lowerStr "a.ADO" = lowerStr "A.ado" ∧
    hashLookup [("x", "h")] "a.ADO" = hashLookup [("x", "h")] "A.ado" ∧
    (dictGet (buildIndex [("A.ado", "h")]) (lowerStr "a.ADO")).isSome = true :=
  ⟨by decide,
   hash_lookup_lowercase_exact.2 [("x", "h")] "a.ADO" "A.ado" (by decide),
   (hash_lookup_lowercase_exact.1 [("A.ado", "h")] "a.ADO").mpr
     ⟨("A.ado", "h"), List.mem_singleton.mpr rfl, by decide, by decide, by decide⟩⟩

/-! Part 10: the integrity manifest loader.

Embedding of `load_hash_index` over parsed JSON.  `json.loads` yields nested
dicts, lists, strings, numbers, booleans and None; the manifest holds no
fractional numbers, so numbers are modelled as integers.  A missing,
unreadable or syntactically invalid manifest is `none` (the code catches
exactly OSError and JSONDecodeError around reading and parsing).  Whatever
valid JSON deviates from the expected shape beyond those cases follows the
interpreter's behaviour: `.get` on a non-dict raises AttributeError,
`Path(...)` of a value that is neither path-like nor a string raises
TypeError, iterating a non-iterable raises TypeError, iterating a dict or a
string yields strings whose `.get` raises AttributeError, and `.lower()` on a
truthy non-string RelativePath raises AttributeError. -/

/-- Parsed JSON values. -/
inductive JVal where
  | null : JVal
  | bool : Bool → JVal
  | num : Int → JVal
  | str : String → JVal
  | arr : List JVal → JVal
  | obj : List (String × JVal) → JVal

/-- Python dict lookup on a parsed JSON object; `json.loads` keeps the last
binding of a duplicated key. -/
def jGet (fields : List (String × JVal)) (k : String) : Option JVal :=
  (fields.reverse.find? (fun e => e.1 == k)).map Prod.snd

/-- Python truthiness of a JSON value. -/
def jTruthy : JVal → Bool
  | JVal.null => false
  | JVal.bool b => b
  | JVal.num n => n != 0
  | JVal.str s => s != ""
  | JVal.arr l => ! l.isEmpty
  | JVal.obj l => ! l.isEmpty

/-- One iteration of the entry loop: entries that are not dicts raise
AttributeError at `.get`; entries with a falsy RelativePath or Hash are
skipped; a truthy non-string RelativePath raises AttributeError at
`.lower()`; otherwise the pair (lower-cased path, raw hash value) is added. -/
def entryStep (acc : List (String × JVal)) (entry : JVal) :
    Except String (List (String × JVal)) :=
  match entry with
  | JVal.obj ef =>
    if ! jTruthy ((jGet ef "RelativePath").getD JVal.null)
        || ! jTruthy ((jGet ef "Hash").getD JVal.null) then Except.ok acc
    else
      match (jGet ef "RelativePath").getD JVal.null with
      | JVal.str s => Except.ok (acc ++ [(lowerStr s, (jGet ef "Hash").getD JVal.null)])
      | _ => Except.error "AttributeError"
  | _ => Except.error "AttributeError"

/-- The entry loop over the Files list. -/
def buildEntries : List JVal → List (String × JVal) →
    Except String (List (String × JVal))
  | [], acc => Except.ok acc
  | e :: rest, acc =>
    match entryStep acc e with
    | Except.ok acc2 => buildEntries rest acc2
    | Except.error m => Except.error m

/-- The RootPath resolution of `load_hash_index`:
`Path(mirror.get("RootPath", shared_root))` keeps the shared root when the key
is absent, accepts a string, and raises TypeError on any other value
(including an explicit null). -/
def rootOf (mf : List (String × JVal)) (sharedRoot : String) : Except String String :=
  match jGet mf "RootPath" with
  | none => Except.ok sharedRoot
  | some (JVal.str s) => Except.ok s
  | some _ => Except.error "TypeError"

/-- The Files resolution of `load_hash_index`: `mirror.get("Files") or []`
turns an absent or falsy value into the empty list; a truthy list is handed to
the entry loop; iterating a truthy dict or string yields strings whose `.get`
raises AttributeError at the first entry, and a number or boolean is not
iterable, raising TypeError. -/
def filesOf (mf : List (String × JVal)) : Except String (List JVal) :=
  match (if jTruthy ((jGet mf "Files").getD JVal.null)
         then (jGet mf "Files").getD JVal.null else JVal.arr []) with
  | JVal.arr es => Except.ok es
  | JVal.obj _ => Except.error "AttributeError"
  | JVal.str _ => Except.error "AttributeError"
  | _ => Except.error "TypeError"

/-- The body of `load_hash_index` after `mirror.get("Mirror") or {}`: a dict
mirror resolves its root and files and runs the entry loop; `.get` on a truthy
non-dict mirror raises AttributeError. -/
def loadMirror (sharedRoot : String) (mirror : JVal) :
    Except String (String × List (String × JVal)) :=
  match mirror with
  | JVal.obj mf =>
    match rootOf mf sharedRoot with
    | Except.error m => Except.error m
    | Except.ok root =>
      match filesOf mf with
      | Except.error m => Except.error m
      | Except.ok es =>
        match buildEntries es [] with
        | Except.ok idx => Except.ok (root, idx)
        | Except.error m => Except.error m
  | _ => Except.error "AttributeError"

/-- Embedding of `load_hash_index`: `none` stands for an absent, unreadable or
non-JSON manifest, which the code turns into the shared root and an empty
index; a parsed manifest follows the code line by line, `Except.error` naming
the exception the interpreter would raise. -/
def load_hash_index (sharedRoot : String) (manifest : Option JVal) :
    Except String (String × List (String × JVal)) :=
  match manifest with
  | none => Except.ok (sharedRoot, [])
  | some (JVal.obj fields) =>
    loadMirror sharedRoot
      (if jTruthy ((jGet fields "Mirror").getD JVal.null)
       then (jGet fields "Mirror").getD JVal.null else JVal.obj [])
  | some _ => Except.error "AttributeError"

/-- C4 counterexample: a manifest holding valid JSON that is not an object,
here the number 42, does not degrade to an empty mapping: the uncaught
AttributeError from `manifest.get("Mirror")` aborts the run. -/
theorem malformed_manifest_raises :
    load_hash_index "shared" (some (JVal.num 42)) = Except.error "AttributeError" := rfl

/-- C4 amended: an absent, unreadable or non-JSON manifest loads as an empty
index without raising, and so do the falsy shape deviations the code reaches
through its `or` defaults and its entry filter: a Mirror field that is absent
or falsy, an absent or falsy Files value under a dict Mirror, and Files
entries whose RelativePath or Hash is absent or falsy, which are skipped while
well-formed entries still load; but valid JSON deviating in type, as in the
counterexample, raises an uncaught exception and aborts the run. -/
theorem manifest_graceful_cases :
    (∀ root, load_hash_index root none = Except.ok (root, [])) ∧
    (∀ root fields, jTruthy ((jGet fields "Mirror").getD JVal.null) = false →
      load_hash_index root (some (JVal.obj fields)) = Except.ok (root, [])) ∧
    (∀ root mf, mf ≠ [] → jGet mf "RootPath" = none →
      jTruthy ((jGet mf "Files").getD JVal.null) = false →
      load_hash_index root (some (JVal.obj [("Mirror", JVal.obj mf)]))
        = Except.ok (root, [])) ∧
    (∀ acc ef, jTruthy ((jGet ef "RelativePath").getD JVal.null) = false
        ∨ jTruthy ((jGet ef "Hash").getD JVal.null) = false →
      entryStep acc (JVal.obj ef) = Except.ok acc) ∧
    (∀ root, load_hash_index root
        (some (JVal.obj [("Mirror", JVal.obj [("Files", JVal.arr
          [JVal.obj [("RelativePath", JVal.str ""), ("Hash", JVal.str "h")],
           JVal.obj [("RelativePath", JVal.str "b.ado")],
           JVal.obj [("RelativePath", JVal.str "A.ado"), ("Hash", JVal.str "h")]])])]))
      = Except.ok (root, [("a.ado", JVal.str "h")])) ∧
    (∀ root, load_hash_index root
        (some (JVal.obj [("Mirror", JVal.obj [("RootPath", JVal.str "R"),
          ("Files", JVal.arr [JVal.obj [("RelativePath", JVal.str "A.ado"),
            ("Hash", JVal.str "h")]])])]))
      = Except.ok ("R", [("a.ado", JVal.str "h")])) := by
  refine ⟨fun root => rfl, ?_, ?_, ?_, fun root => rfl, fun root => rfl⟩
  · intro root fields hm
    unfold load_hash_index
    dsimp only
    rw [hm]
    rfl
  · intro root mf hne hrp hf
    cases mf with
    | nil => cases hne rfl
    | cons a l =>
      show loadMirror root (JVal.obj (a :: l)) = Except.ok (root, [])
      have h2 : rootOf (a :: l) root = Except.ok root := by
        unfold rootOf
        rw [hrp]
      have h3 : filesOf (a :: l) = Except.ok [] := by
        unfold filesOf
        rw [hf]
        rfl
      unfold loadMirror
      dsimp only
      rw [h2, h3]
      rfl
  · intro acc ef h
    rcases h with h | h <;> simp [entryStep, h]

/-- Witness for C4: at concrete inputs, a top-level object without a Mirror
field, a dict Mirror whose Files value is a falsy boolean, and an entry
without a Hash all degrade gracefully. -/
theorem manifest_graceful_cases_witness :
    load_hash_index "shared" (some (JVal.obj [])) = Except.ok ("shared", []) ∧
    load_hash_index "shared"
        (some (JVal.obj [("Mirror", JVal.obj [("Files", JVal.bool false)])]))
      = Except.ok ("shared", []) ∧
    entryStep [] (JVal.obj [("Hash", JVal.str "h")]) = Except.ok [] :=
  ⟨manifest_graceful_cases.2.1 "shared" [] rfl,
   manifest_graceful_cases.2.2.1 "shared" [("Files", JVal.bool false)]
     (List.cons_ne_nil _ _) rfl rfl,
   manifest_graceful_cases.2.2.2.1 [] [("Hash", JVal.str "h")] (Or.inl rfl)⟩
